import Mathlib

/-!
Shallow embedding of the micro-habits-tracker recommendation engine
(`habit_recommender.py`, class `HabitRecommender`).

Python dictionaries are modelled as insertion-ordered association lists
(`List (String × α)`): `dget` is dictionary lookup, `dset` is dictionary
assignment (replace in place when the key exists, append otherwise), which
matches CPython's ordered-dict semantics.  `str.lower()` is `lower` (ASCII
case folding, which is all the engine's vocabulary uses), raising
`ValueError` is returning `Except.error` with the same message string, and
`random.choice(xs)` is modelled by an explicit draw parameter `k : Nat`
selecting `xs[k % xs.length]`: any element a uniform draw could return is
reachable for some `k`, so universally quantified theorems over `k` cover
every possible draw.  `datetime.now().isoformat()` is an ambient input and
is passed in as the `now` parameter.
-/

namespace HabitRec

/-- Python `str.lower()` restricted to ASCII, which covers the engine's
whole fixed vocabulary: every character is case-folded. -/
def lower (s : String) : String := String.mk (s.data.map Char.toLower)

/-- Python `str.capitalize()`: first character upper-cased, the rest
lower-cased (used in `_generate_reasoning` for unknown preference names). -/
def capitalize (s : String) : String :=
  match s.toList with
  | [] => ""
  | c :: rest => String.mk (c.toUpper :: rest.map Char.toLower)

/-- Dictionary lookup `d.get(k)` / `d[k]` on an insertion-ordered
association list. -/
def dget {α : Type} (d : List (String × α)) (k : String) : Option α :=
  (d.find? (fun p => p.1 == k)).map (fun p => p.2)

/-- Dictionary assignment `d[k] = v`: replaces the value at `k` in place
when `k` is already a key, appends the binding otherwise (CPython ordered
dicts keep the original key position on update). -/
def dset {α : Type} (d : List (String × α)) (k : String) (v : α) :
    List (String × α) :=
  if d.any (fun p => p.1 == k) then
    d.map (fun p => if p.1 == k then (k, v) else p)
  else
    d ++ [(k, v)]

/-- A weighted habit catalog: category name to list of habit strings
(`self.habits` and every filtered copy of it). -/
abbrev Catalog := List (String × List String)

/-- `self.habits`: the eight-category habit catalog built in `__init__`. -/
def habits : Catalog :=
  [("relaxation",
    ["Listen to calming music for 5 minutes",
     "Take a 5-minute breathing break",
     "Practice progressive muscle relaxation",
     "Do a quick guided meditation",
     "Take a mindful tea break"]),
   ("mindfulness",
    ["Do a 5-minute meditation session",
     "Practice mindful breathing for 3 minutes",
     "Journal 3 things you\x27re grateful for",
     "Do a body scan meditation",
     "Practice mindful walking for 5 minutes"]),
   ("physical_activity",
    ["Go for a short 10-minute walk",
     "Do 5 minutes of stretching",
     "Do 10 jumping jacks",
     "Take the stairs instead of elevator",
     "Do a quick yoga flow"]),
   ("productivity",
    ["Tidy your workspace",
     "Read a book for 10 minutes",
     "Write down your top 3 priorities",
     "Organize your digital files",
     "Learn something new for 10 minutes"]),
   ("social",
    ["Send a message to a friend",
     "Call a family member",
     "Write a thank you note",
     "Compliment someone",
     "Reach out to an old friend"]),
   ("creative",
    ["Doodle or sketch for 5 minutes",
     "Write a short poem or haiku",
     "Take 3 interesting photos",
     "Brainstorm ideas for a project",
     "Listen to a new genre of music"]),
   ("digital_wellbeing",
    ["Turn off notifications for 30 minutes",
     "Do a quick digital declutter",
     "Take a short screen break",
     "Adjust your screen brightness",
     "Set app time limits"]),
   ("nature",
    ["Step outside for fresh air",
     "Water your plants",
     "Look at the sky for a few minutes",
     "Listen to nature sounds",
     "Open a window for fresh air"])]

/-- `self.valid_moods`: the 18-entry valid-mood vocabulary. -/
def valid_moods : List String :=
  ["stressed", "anxious", "overwhelmed",
   "tired", "fatigued", "exhausted",
   "happy", "excited", "motivated",
   "bored", "understimulated", "restless",
   "sad", "down", "depressed",
   "angry", "frustrated", "irritated"]

/-- `self.mood_categories`: mood-category to raw moods. -/
def mood_categories : List (String × List String) :=
  [("stressed_anxious", ["stressed", "anxious", "overwhelmed"]),
   ("tired_fatigued", ["tired", "fatigued", "exhausted"]),
   ("happy_excited", ["happy", "excited", "motivated"]),
   ("understimulated", ["bored", "understimulated", "restless"]),
   ("negative", ["sad", "down", "depressed", "angry", "frustrated", "irritated"])]

/-- `self.valid_preferences`: the eight canonical category keys. -/
def valid_preferences : List String :=
  ["relaxation", "mindfulness", "physical_activity", "productivity",
   "social", "creative", "digital_wellbeing", "nature"]

/-- `self.preference_display_names`: canonical key to display name. -/
def preference_display_names : List (String × String) :=
  [("relaxation", "Relaxation"),
   ("mindfulness", "Mindfulness"),
   ("physical_activity", "Physical Activity"),
   ("productivity", "Productivity"),
   ("social", "Social"),
   ("creative", "Creative"),
   ("digital_wellbeing", "Digital Wellbeing"),
   ("nature", "Nature")]

/-- `self.mood_preference_affinity`: mood-category to affinity categories. -/
def mood_preference_affinity : List (String × List String) :=
  [("stressed_anxious", ["relaxation", "mindfulness", "nature"]),
   ("tired_fatigued", ["physical_activity", "nature", "social"]),
   ("happy_excited", ["productivity", "creative", "social"]),
   ("understimulated", ["creative", "physical_activity", "productivity"]),
   ("negative", ["mindfulness", "social", "nature"])]

/-- The dict comprehension in `_normalize_preferences`:
`{v.lower(): k for k, v in self.preference_display_names.items()}`. -/
def display_to_internal : List (String × String) :=
  preference_display_names.map (fun p => (lower p.2, p.1))

/-- The body of the loop in `_normalize_preferences` for a single
preference string: display-name match first, then canonical-key match,
otherwise the original string is passed through. -/
def normalizeOne (pref : String) : String :=
  match dget display_to_internal (lower pref) with
  | some internal => internal
  | none =>
      if lower pref ∈ valid_preferences then lower pref else pref

/-- `_normalize_preferences`: the loop appends `normalizeOne` of each
entry, i.e. a map. -/
def normalize_preferences (preferences : List String) : List String :=
  preferences.map normalizeOne

/-- `_validate_inputs`: mood first, then screen time, then each normalized
preference; the raised `ValueError` messages are reproduced verbatim. -/
def validate_inputs (mood : String) (screen_time_minutes : Int)
    (preferences : List String) : Except String Unit :=
  if lower mood ∈ valid_moods then
    if screen_time_minutes < 0 then
      Except.error "Screen time must be a positive number of minutes"
    else
      match (normalize_preferences preferences).find?
          (fun p => !(valid_preferences.contains p)) with
      | some p =>
          Except.error ("Invalid preference: " ++ p ++
            ". Valid preferences are: " ++
            String.intercalate ", " valid_preferences)
      | none => Except.ok ()
  else
    Except.error ("Invalid mood: " ++ mood ++ ". Valid moods are: " ++
      String.intercalate ", " valid_moods)

/-- The mood-category loop in `get_habit_suggestion`: first category whose
mood list contains `mood.lower()`, `None` when no category matches. -/
def moodCategoryOf (mood : String) : Option String :=
  (mood_categories.find? (fun p => p.2.contains (lower mood))).map
    (fun p => p.1)

/-- The duplication step `filtered_habits[category] =
filtered_habits.get(category, []) * 2` folded over a list of categories. -/
def doubleCats (d : Catalog) (cats : List String) : Catalog :=
  cats.foldl
    (fun fh c =>
      let l := (dget fh c).getD []
      dset fh c (l ++ l))
    d

/-- `_apply_screen_time_rules`: start from a copy of `self.habits` and
double the screen-sensitive categories according to the two thresholds. -/
def apply_screen_time_rules (screen_time_minutes : Int) : Catalog :=
  let filtered_habits := habits
  if screen_time_minutes > 240 then
    doubleCats filtered_habits ["digital_wellbeing", "physical_activity", "nature"]
  else if screen_time_minutes > 120 then
    doubleCats filtered_habits ["digital_wellbeing"]
  else
    filtered_habits


/-- One iteration of the ×2 loops in `_apply_mood_rules` (both the
preference loop and the mood-default loop have this body): if `pref` is a
key of `filtered_habits`, set `result_habits[pref] = filtered_habits[pref] * 2`,
otherwise leave the accumulator alone. -/
def prefBoost (filtered_habits : Catalog) (acc : Catalog) (pref : String) :
    Catalog :=
  match dget filtered_habits pref with
  | some l => dset acc pref (l ++ l)
  | none => acc

/-- One iteration of the ×3 affinity loop in `_apply_mood_rules`: under the
guard `pref in preferences and pref in result_habits`, the entry is
replaced by `filtered_habits[pref] * 3`. -/
def affBoost3 (filtered_habits : Catalog) (preferences : List String)
    (acc : Catalog) (pref : String) : Catalog :=
  if pref ∈ preferences ∧ (dget acc pref).isSome then
    dset acc pref ((dget filtered_habits pref).getD [] ++
      (dget filtered_habits pref).getD [] ++ (dget filtered_habits pref).getD [])
  else acc

/-- `_apply_mood_rules`.  The mood category is `Option String` because the
classification loop can leave it `None`; `None in self.mood_preference_affinity`
is `False` in Python, which the `Option.bind` lookup reproduces.  In the ×3
affinity loop Python evaluates `filtered_habits[pref]` only under the guard
`pref in preferences and pref in result_habits`, and every key of
`result_habits` is a key of `filtered_habits`, so the `getD []` default is
never taken on the paths the guard allows. -/
def apply_mood_rules (mood_category : Option String) (filtered_habits : Catalog)
    (preferences : List String) : Catalog :=
  let result0 : Catalog := []
  let result1 :=
    if preferences ≠ [] then
      let ra := preferences.foldl (prefBoost filtered_habits) result0
      match mood_category.bind (dget mood_preference_affinity) with
      | some affinity_prefs =>
          affinity_prefs.foldl (affBoost3 filtered_habits preferences) ra
      | none => ra
    else result0
  let result2 :=
    if result1 = [] then
      match mood_category.bind (dget mood_preference_affinity) with
      | some affinity_prefs =>
          affinity_prefs.foldl (prefBoost filtered_habits) result1
      | none => result1
    else result1
  if result2 = [] then filtered_habits else result2

/-- The flattening loop in `_weighted_random_selection`:
`all_habits.extend(category_habits)` over the dictionary values. -/
def flattenHabits (d : Catalog) : List String :=
  d.foldl (fun acc p => acc ++ p.2) []

/-- `_weighted_random_selection` with the uniform draw made explicit: `k`
indexes the flattened pool modulo its length (every element `random.choice`
could pick is `k % length` for some `k`). -/
def weighted_random_selection (filtered_habits : Catalog) (k : Nat) : String :=
  let all_habits := flattenHabits filtered_habits
  if h : all_habits = [] then
    "Take a 5-minute break and reflect on your day"
  else
    all_habits.get ⟨k % all_habits.length,
      Nat.mod_lt k (List.length_pos.mpr h)⟩

/-- `_generate_reasoning`: the mood-template sentence, the screen-time
sentence and the preference sentence, space-joined. -/
def generate_reasoning (mood : String) (mood_category : Option String)
    (screen_time_minutes : Int) (preferences : List String) : String :=
  let moodReasons : List String :=
    match mood_category with
    | some "stressed_anxious" =>
        ["When you\x27re feeling " ++ mood ++
         ", activities that promote relaxation and mindfulness can help reduce stress."]
    | some "tired_fatigued" =>
        ["When you\x27re feeling " ++ mood ++
         ", light physical activity can actually boost your energy levels."]
    | some "happy_excited" =>
        ["When you\x27re feeling " ++ mood ++
         ", channeling that positive energy into productive or creative tasks can be fulfilling."]
    | some "understimulated" =>
        ["When you\x27re feeling " ++ mood ++
         ", engaging in stimulating activities can help increase your motivation."]
    | some "negative" =>
        ["When you\x27re feeling " ++ mood ++
         ", mindful activities and social connection can help improve your mood."]
    | _ => []
  let screenReasons : List String :=
    if screen_time_minutes > 240 then
      ["Your screen time is quite high today, so taking a break from devices could be beneficial."]
    else if screen_time_minutes > 120 then
      ["You\x27ve had a moderate amount of screen time today, so a short break might be refreshing."]
    else []
  let prefReasons : List String :=
    if preferences ≠ [] then
      let display_prefs := preferences.map
        (fun p => (dget preference_display_names p).getD (capitalize p))
      ["This suggestion aligns with your preference for " ++
       String.intercalate " and " display_prefs ++ "."]
    else []
  String.intercalate " " (moodReasons ++ screenReasons ++ prefReasons)

/-- The result dictionary assembled by `get_habit_suggestion`. -/
structure SuggestionResult where
  habit : String
  mood : String
  mood_category : Option String
  screen_time_minutes : Int
  preferences : List String
  timestamp : String
  reasoning : String
  deriving Repr, DecidableEq

/-- `get_habit_suggestion`: validate, normalize, classify, filter by screen
time, filter by mood/preferences, select, explain.  `now` stands for
`datetime.now().isoformat()` and `k` for the random draw. -/
def get_habit_suggestion (mood : String) (screen_time_minutes : Int)
    (preferences : List String) (now : String) (k : Nat) :
    Except String SuggestionResult :=
  match validate_inputs mood screen_time_minutes preferences with
  | Except.error e => Except.error e
  | Except.ok _ =>
    let normalized_preferences := normalize_preferences preferences
    let mood_category := moodCategoryOf mood
    let filtered_habits := apply_screen_time_rules screen_time_minutes
    let filtered_habits2 := apply_mood_rules mood_category filtered_habits
      normalized_preferences
    let selected_habit := weighted_random_selection filtered_habits2 k
    let reasoning := generate_reasoning mood mood_category screen_time_minutes
      normalized_preferences
    Except.ok
      { habit := selected_habit
        mood := mood
        mood_category := mood_category
        screen_time_minutes := screen_time_minutes
        preferences := preferences
        timestamp := now
        reasoning := reasoning }

/-- Keep the first occurrence of every string, dropping later duplicates
(used to state that duplicate preferences do not stack weight). -/
def firstDedup : List String → List String
  | [] => []
  | a :: rest => a :: firstDedup (rest.filter (fun b => !(b == a)))
termination_by l => l.length
decreasing_by
  simp only [List.length_cons]
  exact Nat.lt_succ_of_le (rest.length_filter_le _)

/-- A heap of Python dict objects, used to make object identity and
mutation explicit for the frame property of `_apply_screen_time_rules`:
`self.habits` and the filtered copy are distinct heap cells. -/
structure Heap where
  objs : List Catalog

/-- Read the dict object stored at heap index `i`. -/
def readH (h : Heap) (i : Nat) : Catalog := h.objs[i]?.getD []

/-- Overwrite the dict object stored at heap index `i` (a Python dict
mutation such as `d[k] = v` targets one heap cell). -/
def writeH (h : Heap) (i : Nat) (d : Catalog) : Heap := ⟨h.objs.set i d⟩

/-- Allocate a fresh dict object (`dict.copy()` allocates): returns the
extended heap and the index of the new cell. -/
def allocH (h : Heap) (d : Catalog) : Heap × Nat := (⟨h.objs ++ [d]⟩, h.objs.length)

/-- The duplication loop of `_apply_screen_time_rules` acting on the heap
cell `fi` holding `filtered_habits`: each iteration mutates that one
cell. -/
def doubleCatsH (h : Heap) (fi : Nat) (cats : List String) : Heap :=
  cats.foldl
    (fun hh c =>
      let fh := readH hh fi
      let l := (dget fh c).getD []
      writeH hh fi (dset fh c (l ++ l)))
    h

/-- `_apply_screen_time_rules` in heap form: `filtered_habits =
self.habits.copy()` allocates a fresh cell seeded with the value of the
cell `selfHabits` holding `self.habits`, the duplication loops mutate only
the fresh cell, and the index of the fresh cell is returned. -/
def apply_screen_time_rulesH (h : Heap) (selfHabits : Nat) (t : Int) :
    Heap × Nat :=
  let a := allocH h (readH h selfHabits)
  if t > 240 then
    (doubleCatsH a.1 a.2 ["digital_wellbeing", "physical_activity", "nature"], a.2)
  else if t > 120 then
    (doubleCatsH a.1 a.2 ["digital_wellbeing"], a.2)
  else
    a

/-- A selection pool is well-formed when every category entry is a
non-empty list of strings drawn from the flattened base catalog. -/
abbrev GoodPool (d : Catalog) : Prop :=
  ∀ p ∈ d, p.2 ≠ [] ∧ ∀ x ∈ p.2, x ∈ flattenHabits habits

/-- Every key of `d` is a key of the weighted catalog `fh` (the invariant
making the `getD []` default in the ×3 affinity step unreachable). -/
abbrev KeysSub (d fh : Catalog) : Prop := ∀ p ∈ d, (dget fh p.1).isSome

/-- Coherence of a `_apply_mood_rules` accumulator with the weighted
catalog: every entry is the doubled catalog list of its key, so
re-processing a duplicate preference rewrites an entry with the value it
already has. -/
abbrev Coh (fh acc : Catalog) : Prop :=
  ∀ q ∈ acc, ∃ l, dget fh q.1 = some l ∧ q.2 = l ++ l

end HabitRec

namespace HabitRec

/-! ### Association-list dictionary lemmas -/

lemma dget_eq_some {α : Type} {d : List (String × α)} {k : String} {v : α}
    (h : dget d k = some v) : ∃ q ∈ d, q.1 = k ∧ q.2 = v := by
  unfold dget at h
  rcases Option.map_eq_some'.mp h with ⟨q, hq, hv⟩
  have hpq : (q.1 == k) = true := by simpa using List.find?_some hq
  exact ⟨q, List.mem_of_find?_eq_some hq, eq_of_beq hpq, hv⟩

lemma mem_dset {α : Type} {d : List (String × α)} {k : String} {v : α}
    {q : String × α} (h : q ∈ dset d k v) : q = (k, v) ∨ q ∈ d := by
  unfold dset at h
  split at h
  · rcases List.mem_map.mp h with ⟨p, hp, hf⟩
    by_cases hk : p.1 == k
    · left; simp only [hk, if_true] at hf; exact hf.symm
    · right; simp only [hk, Bool.false_eq_true, if_false] at hf; exact hf ▸ hp
  · rcases List.mem_append.mp h with h | h
    · right; exact h
    · left; simpa using h

lemma dset_ne_nil {α : Type} (d : List (String × α)) (k : String) (v : α) :
    dset d k v ≠ [] := by
  unfold dset
  by_cases hany : d.any (fun p => p.1 == k)
  · rw [if_pos hany]
    intro hc
    rw [List.map_eq_nil_iff] at hc
    subst hc
    simp at hany
  · rw [if_neg hany]
    simp

/-! ### Validation and orchestration helpers -/

lemma validate_inputs_ok {mood : String} {t : Int} {prefs : List String}
    (hm : lower mood ∈ valid_moods) (ht : 0 ≤ t)
    (hp : ∀ p ∈ normalize_preferences prefs, p ∈ valid_preferences) :
    validate_inputs mood t prefs = Except.ok () := by
  unfold validate_inputs
  rw [if_pos hm, if_neg (by omega)]
  have hnone : (normalize_preferences prefs).find?
      (fun p => !(valid_preferences.contains p)) = none := by
    rw [List.find?_eq_none]
    intro x hx
    simpa using hp x hx
  rw [hnone]

lemma get_habit_suggestion_ok {mood : String} {t : Int} {prefs : List String}
    (now : String) (k : Nat)
    (hv : validate_inputs mood t prefs = Except.ok ()) :
    get_habit_suggestion mood t prefs now k = Except.ok
      { habit := weighted_random_selection
          (apply_mood_rules (moodCategoryOf mood) (apply_screen_time_rules t)
            (normalize_preferences prefs)) k
        mood := mood
        mood_category := moodCategoryOf mood
        screen_time_minutes := t
        preferences := prefs
        timestamp := now
        reasoning := generate_reasoning mood (moodCategoryOf mood) t
          (normalize_preferences prefs) } := by
  unfold get_habit_suggestion
  rw [hv]

/-! ### Claim theorems, first batch -/

/-- C8: the five mood-category sets partition the 18-entry valid-mood
vocabulary: every valid mood belongs to exactly one mood-category, every
mood listed in a category is a valid mood, and the mood classifier is
defined (returns a category) on every valid mood. -/
theorem mood_taxonomy_partitions_vocabulary :
    (∀ m ∈ valid_moods,
      mood_categories.countP (fun p => p.2.contains m) = 1) ∧
    (∀ p ∈ mood_categories, ∀ m ∈ p.2, m ∈ valid_moods) ∧
    (∀ m ∈ valid_moods, (moodCategoryOf m).isSome) := by
  decide

/-- Each canonical preference key normalizes to itself. -/
lemma normalizeOne_valid_fixed : ∀ v ∈ valid_preferences, normalizeOne v = v := by
  decide

/-- Every value of the display-name reverse map is a canonical key. -/
lemma display_to_internal_valid :
    ∀ q ∈ display_to_internal, q.2 ∈ valid_preferences := by
  decide

/-- Normalizing a single preference string twice equals normalizing once. -/
lemma normalizeOne_idem (x : String) :
    normalizeOne (normalizeOne x) = normalizeOne x := by
  rcases h : dget display_to_internal (lower x) with _ | internal
  · by_cases hv : lower x ∈ valid_preferences
    · have h1 : normalizeOne x = lower x := by
        unfold normalizeOne
        rw [h]
        exact if_pos hv
      rw [h1]
      exact normalizeOne_valid_fixed _ hv
    · have h1 : normalizeOne x = x := by
        unfold normalizeOne
        rw [h]
        exact if_neg hv
      rw [h1, h1]
  · have h1 : normalizeOne x = internal := by
      unfold normalizeOne
      rw [h]
    rw [h1]
    rcases dget_eq_some h with ⟨q, hq, _, hv⟩
    exact normalizeOne_valid_fixed _ (hv ▸ display_to_internal_valid q hq)

/-- C5: preference normalization is idempotent, both on a single
preference string (already-canonical keys and unresolvable strings come
back unchanged) and on whole preference lists. -/
theorem normalize_preferences_idempotent :
    (∀ x : String, normalizeOne (normalizeOne x) = normalizeOne x) ∧
    (∀ l : List String,
      normalize_preferences (normalize_preferences l) = normalize_preferences l) := by
  refine ⟨normalizeOne_idem, fun l => ?_⟩
  unfold normalize_preferences
  rw [List.map_map]
  exact List.map_congr_left (fun x _ => normalizeOne_idem x)

/-- C7: a mood whose lower-cased form is outside the 18-entry vocabulary
makes `get_habit_suggestion` fail with the invalid-mood error whose message
ends with the comma-separated enumeration of the whole valid-mood
vocabulary, before any filtering or selection output is produced. -/
theorem invalid_mood_raises (mood : String)
    (hm : lower mood ∉ valid_moods) (t : Int) (prefs : List String)
    (now : String) (k : Nat) :
    get_habit_suggestion mood t prefs now k = Except.error
      ("Invalid mood: " ++ mood ++ ". Valid moods are: " ++
        String.intercalate ", " valid_moods) := by
  unfold get_habit_suggestion validate_inputs
  rw [if_neg hm]

/-- C7 witness: the concrete mood "blissful" is rejected with the
enumerating message whatever the other arguments are. -/
theorem invalid_mood_raises_witness :
    get_habit_suggestion "blissful" 100 ["Relaxation"] "2024-01-01" 0 =
      Except.error
        ("Invalid mood: blissful. Valid moods are: " ++
          String.intercalate ", " valid_moods) :=
  invalid_mood_raises "blissful" (by decide) 100 ["Relaxation"] "2024-01-01" 0

/-- C1: for every mood in the valid vocabulary (in any letter case) and
every screen time `t ≥ 0`, `get_habit_suggestion` with empty preferences
validates and returns a `SuggestionResult`; no pipeline stage fails. -/
theorem valid_mood_never_raises (mood : String) (t : Int)
    (hm : lower mood ∈ valid_moods) (ht : 0 ≤ t) (now : String) (k : Nat) :
    ∃ r, get_habit_suggestion mood t [] now k = Except.ok r :=
  ⟨_, get_habit_suggestion_ok now k
    (validate_inputs_ok hm ht (by simp [normalize_preferences]))⟩

/-- C1 witness: the upper-case mood "OVERWHELMED" with zero screen time
yields a suggestion. -/
theorem valid_mood_never_raises_witness :
    ∃ r, get_habit_suggestion "OVERWHELMED" 0 [] "2024-01-01" 3 = Except.ok r :=
  valid_mood_never_raises "OVERWHELMED" 0 (by decide) (by decide) "2024-01-01" 3


/-! ### Screen-time filter case analysis -/

lemma apply_screen_time_rules_high {t : Int} (h : 240 < t) :
    apply_screen_time_rules t =
      doubleCats habits ["digital_wellbeing", "physical_activity", "nature"] := by
  unfold apply_screen_time_rules
  rw [if_pos h]

lemma apply_screen_time_rules_mid {t : Int} (h1 : 120 < t) (h2 : t ≤ 240) :
    apply_screen_time_rules t = doubleCats habits ["digital_wellbeing"] := by
  unfold apply_screen_time_rules
  rw [if_neg (by omega), if_pos h1]

lemma apply_screen_time_rules_low {t : Int} (h : t ≤ 120) :
    apply_screen_time_rules t = habits := by
  unfold apply_screen_time_rules
  rw [if_neg (by omega), if_neg (by omega)]

/-- C4: the screen-time filter duplicates exactly the habit lists of
`digital_wellbeing`, `physical_activity` and `nature` when `t > 240`,
exactly `digital_wellbeing` when `120 < t ≤ 240`, and leaves the whole
catalog unchanged when `t ≤ 120`. -/
theorem screen_time_rules_weighting (t : Int) :
    (240 < t → ∀ c ∈ valid_preferences,
      dget (apply_screen_time_rules t) c =
        if c = "digital_wellbeing" ∨ c = "physical_activity" ∨ c = "nature"
        then (dget habits c).map (fun l => l ++ l)
        else dget habits c) ∧
    (120 < t → t ≤ 240 → ∀ c ∈ valid_preferences,
      dget (apply_screen_time_rules t) c =
        if c = "digital_wellbeing"
        then (dget habits c).map (fun l => l ++ l)
        else dget habits c) ∧
    (t ≤ 120 → apply_screen_time_rules t = habits) := by
  refine ⟨fun h c hc => ?_, fun h1 h2 c hc => ?_, fun h => apply_screen_time_rules_low h⟩
  · rw [apply_screen_time_rules_high h]
    fin_cases hc <;> decide
  · rw [apply_screen_time_rules_mid h1 h2]
    fin_cases hc <;> decide

/-- C4 witness: concrete screen times in each of the three tiers. -/
theorem screen_time_rules_weighting_witness :
    (dget (apply_screen_time_rules 300) "nature" =
      if "nature" = "digital_wellbeing" ∨ "nature" = "physical_activity" ∨
          "nature" = "nature"
      then (dget habits "nature").map (fun l => l ++ l)
      else dget habits "nature") ∧
    (dget (apply_screen_time_rules 200) "social" =
      if "social" = "digital_wellbeing"
      then (dget habits "social").map (fun l => l ++ l)
      else dget habits "social") ∧
    apply_screen_time_rules 100 = habits :=
  ⟨(screen_time_rules_weighting 300).1 (by decide) "nature" (by decide),
   (screen_time_rules_weighting 200).2.1 (by decide) (by decide) "social" (by decide),
   (screen_time_rules_weighting 100).2.2 (by decide)⟩

/-! ### Selection lemmas -/

lemma weighted_random_selection_mem {d : Catalog} (k : Nat)
    (h : flattenHabits d ≠ []) :
    weighted_random_selection d k ∈ flattenHabits d := by
  unfold weighted_random_selection
  rw [dif_neg h]
  exact List.get_mem _ _ _

/-- C2: for the concrete call
`get_habit_suggestion("Stressed", 310, ["Relaxation", "Mindfulness"])`,
whatever the random draw `k` picks, the suggestion succeeds and the
returned habit comes from the relaxation or the mindfulness catalog
list. -/
theorem stressed_suggestion_from_relaxation_or_mindfulness
    (now : String) (k : Nat) :
    ∃ r, get_habit_suggestion "Stressed" 310 ["Relaxation", "Mindfulness"]
        now k = Except.ok r ∧
      (r.habit ∈ (dget habits "relaxation").getD [] ∨
       r.habit ∈ (dget habits "mindfulness").getD []) := by
  refine ⟨_, get_habit_suggestion_ok now k rfl, ?_⟩
  have hmem := weighted_random_selection_mem
    (d := apply_mood_rules (moodCategoryOf "Stressed")
      (apply_screen_time_rules 310)
      (normalize_preferences ["Relaxation", "Mindfulness"])) k (by decide)
  have hall : ∀ x ∈ flattenHabits
      (apply_mood_rules (moodCategoryOf "Stressed")
        (apply_screen_time_rules 310)
        (normalize_preferences ["Relaxation", "Mindfulness"])),
      x ∈ (dget habits "relaxation").getD [] ∨
        x ∈ (dget habits "mindfulness").getD [] := by decide
  exact hall _ hmem

/-- C3: with mood "Sad" and empty preferences the selection pool is built
from the affinity categories mindfulness, social and nature only, so for
every screen time `t ≥ 0` and every random draw `k` the returned habit is
from one of those three catalog lists and never from the productivity or
creative lists. -/
theorem sad_no_preferences_avoids_productivity_creative
    (t : Int) (ht : 0 ≤ t) (now : String) (k : Nat) :
    ∃ r, get_habit_suggestion "Sad" t [] now k = Except.ok r ∧
      (r.habit ∈ (dget habits "mindfulness").getD [] ∨
       r.habit ∈ (dget habits "social").getD [] ∨
       r.habit ∈ (dget habits "nature").getD []) ∧
      r.habit ∉ (dget habits "productivity").getD [] ∧
      r.habit ∉ (dget habits "creative").getD [] := by
  have hv : validate_inputs "Sad" t [] = Except.ok () :=
    validate_inputs_ok (by decide) ht (by simp [normalize_preferences])
  refine ⟨_, get_habit_suggestion_ok now k hv, ?_⟩
  by_cases h1 : 240 < t
  · rw [apply_screen_time_rules_high h1]
    have hmem := weighted_random_selection_mem
      (d := apply_mood_rules (moodCategoryOf "Sad")
        (doubleCats habits ["digital_wellbeing", "physical_activity", "nature"])
        (normalize_preferences [])) k (by decide)
    have hall : ∀ x ∈ flattenHabits
        (apply_mood_rules (moodCategoryOf "Sad")
          (doubleCats habits ["digital_wellbeing", "physical_activity", "nature"])
          (normalize_preferences [])),
        (x ∈ (dget habits "mindfulness").getD [] ∨
          x ∈ (dget habits "social").getD [] ∨
          x ∈ (dget habits "nature").getD []) ∧
        x ∉ (dget habits "productivity").getD [] ∧
        x ∉ (dget habits "creative").getD [] := by decide
    exact hall _ hmem
  · by_cases h2 : 120 < t
    · rw [apply_screen_time_rules_mid h2 (by omega)]
      have hmem := weighted_random_selection_mem
        (d := apply_mood_rules (moodCategoryOf "Sad")
          (doubleCats habits ["digital_wellbeing"])
          (normalize_preferences [])) k (by decide)
      have hall : ∀ x ∈ flattenHabits
          (apply_mood_rules (moodCategoryOf "Sad")
            (doubleCats habits ["digital_wellbeing"])
            (normalize_preferences [])),
          (x ∈ (dget habits "mindfulness").getD [] ∨
            x ∈ (dget habits "social").getD [] ∨
            x ∈ (dget habits "nature").getD []) ∧
          x ∉ (dget habits "productivity").getD [] ∧
          x ∉ (dget habits "creative").getD [] := by decide
      exact hall _ hmem
    · rw [apply_screen_time_rules_low (by omega)]
      have hmem := weighted_random_selection_mem
        (d := apply_mood_rules (moodCategoryOf "Sad") habits
          (normalize_preferences [])) k (by decide)
      have hall : ∀ x ∈ flattenHabits
          (apply_mood_rules (moodCategoryOf "Sad") habits
            (normalize_preferences [])),
          (x ∈ (dget habits "mindfulness").getD [] ∨
            x ∈ (dget habits "social").getD [] ∨
            x ∈ (dget habits "nature").getD []) ∧
          x ∉ (dget habits "productivity").getD [] ∧
          x ∉ (dget habits "creative").getD [] := by decide
      exact hall _ hmem

/-- C3 witness: the concrete call with screen time 120. -/
theorem sad_no_preferences_witness :
    ∃ r, get_habit_suggestion "Sad" 120 [] "2024-01-01" 5 = Except.ok r ∧
      (r.habit ∈ (dget habits "mindfulness").getD [] ∨
       r.habit ∈ (dget habits "social").getD [] ∨
       r.habit ∈ (dget habits "nature").getD []) ∧
      r.habit ∉ (dget habits "productivity").getD [] ∧
      r.habit ∉ (dget habits "creative").getD [] :=
  sad_no_preferences_avoids_productivity_creative 120 (by decide) "2024-01-01" 5

/-! ### Heap lemmas for the frame property of the screen-time filter -/

lemma readH_writeH_self {h : Heap} {i : Nat} (hi : i < h.objs.length)
    (d : Catalog) : readH (writeH h i d) i = d := by
  unfold readH writeH
  simp [List.getElem?_set_self hi]

lemma readH_writeH_ne {h : Heap} {i j : Nat} (hij : i ≠ j) (d : Catalog) :
    readH (writeH h i d) j = readH h j := by
  unfold readH writeH
  simp only [List.getElem?_set_ne hij]

lemma writeH_length (h : Heap) (i : Nat) (d : Catalog) :
    (writeH h i d).objs.length = h.objs.length :=
  List.length_set h.objs i d

lemma doubleCatsH_spec (cats : List String) :
    ∀ (h : Heap) (fi : Nat), fi < h.objs.length →
      (doubleCatsH h fi cats).objs.length = h.objs.length ∧
      (∀ j, j ≠ fi → readH (doubleCatsH h fi cats) j = readH h j) ∧
      readH (doubleCatsH h fi cats) fi = doubleCats (readH h fi) cats := by
  induction cats with
  | nil => exact fun h fi _ => ⟨rfl, fun j _ => rfl, rfl⟩
  | cons c cs ih =>
    intro h fi hfi
    have step : doubleCatsH h fi (c :: cs) =
        doubleCatsH (writeH h fi (dset (readH h fi) c
          ((dget (readH h fi) c).getD [] ++ (dget (readH h fi) c).getD [])))
          fi cs := rfl
    have hlen := writeH_length h fi (dset (readH h fi) c
      ((dget (readH h fi) c).getD [] ++ (dget (readH h fi) c).getD []))
    obtain ⟨l1, l2, l3⟩ := ih (writeH h fi (dset (readH h fi) c
      ((dget (readH h fi) c).getD [] ++ (dget (readH h fi) c).getD [])))
      fi (by omega)
    refine ⟨?_, ?_, ?_⟩
    · rw [step, l1, hlen]
    · intro j hj
      rw [step, l2 j hj, readH_writeH_ne (fun he => hj he.symm)]
    · rw [step, l3, readH_writeH_self hfi]
      rfl

/-- C6: the screen-time filter never mutates the stored catalog.  In the
heap model where `selfHabits` is the cell holding `self.habits`, after the
call the stored catalog cell still holds its old value, the returned dict
lives in a fresh cell distinct from the stored one, and its value is the
one computed by the pure `apply_screen_time_rules`. -/
theorem screen_time_filter_does_not_mutate_catalog
    (h : Heap) (selfHabits : Nat) (t : Int)
    (hself : selfHabits < h.objs.length)
    (hval : readH h selfHabits = habits) :
    readH (apply_screen_time_rulesH h selfHabits t).1 selfHabits =
      readH h selfHabits ∧
    (apply_screen_time_rulesH h selfHabits t).2 ≠ selfHabits ∧
    readH (apply_screen_time_rulesH h selfHabits t).1
      (apply_screen_time_rulesH h selfHabits t).2 =
      apply_screen_time_rules t := by
  have hne : h.objs.length ≠ selfHabits := by omega
  have hread : readH ⟨h.objs ++ [readH h selfHabits]⟩ selfHabits =
      readH h selfHabits := by
    unfold readH
    rw [List.getElem?_append_left hself]
  have hreadfi : readH ⟨h.objs ++ [readH h selfHabits]⟩ h.objs.length =
      readH h selfHabits := by
    unfold readH
    rw [List.getElem?_concat_length]
    rfl
  have hfilen : (Heap.mk (h.objs ++ [readH h selfHabits])).objs.length =
      h.objs.length + 1 := by simp
  unfold apply_screen_time_rulesH allocH
  by_cases h1 : 240 < t
  · rw [if_pos h1]
    obtain ⟨_, l2, l3⟩ := doubleCatsH_spec
      ["digital_wellbeing", "physical_activity", "nature"]
      ⟨h.objs ++ [readH h selfHabits]⟩ h.objs.length (by omega)
    refine ⟨by rw [l2 selfHabits (fun he => hne he.symm), hread], hne, ?_⟩
    rw [l3, hreadfi, hval, apply_screen_time_rules_high h1]
  · rw [if_neg h1]
    by_cases h2 : 120 < t
    · rw [if_pos h2]
      obtain ⟨_, l2, l3⟩ := doubleCatsH_spec ["digital_wellbeing"]
        ⟨h.objs ++ [readH h selfHabits]⟩ h.objs.length (by omega)
      refine ⟨by rw [l2 selfHabits (fun he => hne he.symm), hread], hne, ?_⟩
      rw [l3, hreadfi, hval, apply_screen_time_rules_mid h2 (by omega)]
    · rw [if_neg h2]
      exact ⟨hread, hne, by rw [hreadfi, hval,
        apply_screen_time_rules_low (by omega)]⟩

/-- C6 witness: a one-cell heap holding the catalog, screen time 300. -/
theorem screen_time_filter_does_not_mutate_catalog_witness :
    readH (apply_screen_time_rulesH ⟨[habits]⟩ 0 300).1 0 =
      readH ⟨[habits]⟩ 0 ∧
    (apply_screen_time_rulesH ⟨[habits]⟩ 0 300).2 ≠ 0 ∧
    readH (apply_screen_time_rulesH ⟨[habits]⟩ 0 300).1
      (apply_screen_time_rulesH ⟨[habits]⟩ 0 300).2 =
      apply_screen_time_rules 300 :=
  screen_time_filter_does_not_mutate_catalog ⟨[habits]⟩ 0 300
    (by decide) rfl

/-! ### Pool goodness lemmas for the mood/preference filter -/

lemma flattenHabits_eq_flatten (d : Catalog) :
    flattenHabits d = (d.map (fun p => p.2)).flatten := by
  have aux : ∀ (e : Catalog) (acc : List String),
      e.foldl (fun a p => a ++ p.2) acc = acc ++ (e.map (fun p => p.2)).flatten := by
    intro e
    induction e with
    | nil => intro acc; simp
    | cons q rest ih =>
        intro acc
        simp only [List.foldl_cons, List.map_cons, List.flatten_cons]
        rw [ih]
        simp [List.append_assoc]
  simpa using aux d []

lemma mem_flattenHabits {d : Catalog} {x : String} :
    x ∈ flattenHabits d ↔ ∃ p ∈ d, x ∈ p.2 := by
  rw [flattenHabits_eq_flatten, List.mem_flatten]
  constructor
  · rintro ⟨l, hl, hx⟩
    rcases List.mem_map.mp hl with ⟨p, hp, rfl⟩
    exact ⟨p, hp, hx⟩
  · rintro ⟨p, hp, hx⟩
    exact ⟨p.2, List.mem_map_of_mem _ hp, hx⟩

lemma flattenHabits_ne_nil {d : Catalog} (hd : d ≠ []) (hg : GoodPool d) :
    flattenHabits d ≠ [] := by
  rcases List.exists_mem_of_ne_nil d hd with ⟨p, hp⟩
  rcases List.exists_mem_of_ne_nil p.2 (hg p hp).1 with ⟨x, hx⟩
  exact List.ne_nil_of_mem (mem_flattenHabits.mpr ⟨p, hp, hx⟩)

lemma flattenHabits_sub {d : Catalog} (hg : GoodPool d) :
    ∀ x ∈ flattenHabits d, x ∈ flattenHabits habits := by
  intro x hx
  rcases mem_flattenHabits.mp hx with ⟨p, hp, hxp⟩
  exact (hg p hp).2 x hxp

lemma GoodPool_dset {d : Catalog} {k : String} {v : List String}
    (hd : GoodPool d) (hv : v ≠ []) (hs : ∀ x ∈ v, x ∈ flattenHabits habits) :
    GoodPool (dset d k v) := by
  intro p hp
  rcases mem_dset hp with rfl | hp'
  · exact ⟨hv, hs⟩
  · exact hd p hp'

lemma KeysSub_dset {d fh : Catalog} {k : String} {v : List String}
    (hd : KeysSub d fh) (hk : (dget fh k).isSome) : KeysSub (dset d k v) fh := by
  intro p hp
  rcases mem_dset hp with rfl | hp'
  · exact hk
  · exact hd p hp'

lemma prefBoost_good {fh acc : Catalog} {pref : String}
    (hfh : GoodPool fh) (hacc : GoodPool acc) (hks : KeysSub acc fh) :
    GoodPool (prefBoost fh acc pref) ∧ KeysSub (prefBoost fh acc pref) fh := by
  unfold prefBoost
  rcases h : dget fh pref with _ | l
  · exact ⟨hacc, hks⟩
  · rcases dget_eq_some h with ⟨q, hq, hqk, hqv⟩
    have hgood := hfh q hq
    constructor
    · apply GoodPool_dset hacc
      · intro hll
        rcases List.append_eq_nil.mp hll with ⟨hl1, _⟩
        exact hgood.1 (hqv ▸ hl1)
      · intro x hx
        rcases List.mem_append.mp hx with hx | hx <;>
          exact hgood.2 x (by rw [hqv]; exact hx)
    · exact KeysSub_dset hks (by rw [h]; rfl)

lemma foldl_prefBoost_good {fh : Catalog} (hfh : GoodPool fh) :
    ∀ (prefs : List String) (acc : Catalog), GoodPool acc → KeysSub acc fh →
      GoodPool (prefs.foldl (prefBoost fh) acc) ∧
      KeysSub (prefs.foldl (prefBoost fh) acc) fh := by
  intro prefs
  induction prefs with
  | nil => exact fun acc h1 h2 => ⟨h1, h2⟩
  | cons p ps ih =>
      intro acc h1 h2
      obtain ⟨g1, g2⟩ := prefBoost_good hfh h1 h2
      exact ih _ g1 g2

lemma prefBoost_ne_nil {fh acc : Catalog} {pref : String} (h : acc ≠ []) :
    prefBoost fh acc pref ≠ [] := by
  unfold prefBoost
  rcases dget fh pref with _ | l
  · exact h
  · exact dset_ne_nil _ _ _

lemma foldl_prefBoost_ne_nil {fh : Catalog} :
    ∀ (prefs : List String) (acc : Catalog), acc ≠ [] →
      prefs.foldl (prefBoost fh) acc ≠ [] := by
  intro prefs
  induction prefs with
  | nil => exact fun acc h => h
  | cons p ps ih => exact fun acc h => ih _ (prefBoost_ne_nil h)

lemma foldl_prefBoost_ne_nil_of_key {fh : Catalog} :
    ∀ (prefs : List String) (acc : Catalog),
      (∃ p ∈ prefs, (dget fh p).isSome) →
      prefs.foldl (prefBoost fh) acc ≠ [] := by
  intro prefs
  induction prefs with
  | nil => rintro acc ⟨p, hp, _⟩; cases hp
  | cons q qs ih =>
      rintro acc ⟨p, hp, hs⟩
      rcases List.mem_cons.mp hp with rfl | hp'
      · show List.foldl (prefBoost fh) (prefBoost fh acc p) qs ≠ []
        apply foldl_prefBoost_ne_nil
        unfold prefBoost
        rcases h : dget fh p with _ | l
        · rw [h] at hs; cases hs
        · exact dset_ne_nil _ _ _
      · exact ih _ ⟨p, hp', hs⟩

lemma affBoost3_good (prefs : List String) (pref : String)
    {fh acc : Catalog} (hfh : GoodPool fh) (hacc : GoodPool acc)
    (hks : KeysSub acc fh) :
    GoodPool (affBoost3 fh prefs acc pref) ∧
    KeysSub (affBoost3 fh prefs acc pref) fh ∧
    (acc ≠ [] → affBoost3 fh prefs acc pref ≠ []) := by
  unfold affBoost3
  by_cases hc : pref ∈ prefs ∧ (dget acc pref).isSome
  · rw [if_pos hc]
    rcases Option.isSome_iff_exists.mp hc.2 with ⟨v, hv⟩
    rcases dget_eq_some hv with ⟨q, hq, hqk, _⟩
    have hsome := hks q hq
    rw [hqk] at hsome
    rcases Option.isSome_iff_exists.mp hsome with ⟨l, hl⟩
    rcases dget_eq_some hl with ⟨q2, hq2, _, hq2v⟩
    have hgood := hfh q2 hq2
    rw [hl]
    refine ⟨GoodPool_dset hacc ?_ ?_,
      KeysSub_dset hks (by rw [hl]; rfl), fun _ => dset_ne_nil _ _ _⟩
    · simp only [Option.getD_some]
      intro hll
      rcases List.append_eq_nil.mp hll with ⟨hl1, _⟩
      rcases List.append_eq_nil.mp hl1 with ⟨hl2, _⟩
      exact hgood.1 (hq2v ▸ hl2)
    · simp only [Option.getD_some]
      intro x hx
      rcases List.mem_append.mp hx with hx | hx
      · rcases List.mem_append.mp hx with hx | hx <;>
          exact hgood.2 x (by rw [hq2v]; exact hx)
      · exact hgood.2 x (by rw [hq2v]; exact hx)
  · rw [if_neg hc]
    exact ⟨hacc, hks, fun h => h⟩

lemma foldl_affBoost3_good (prefs : List String) {fh : Catalog}
    (hfh : GoodPool fh) :
    ∀ (aff : List String) (acc : Catalog), GoodPool acc → KeysSub acc fh →
      GoodPool (aff.foldl (affBoost3 fh prefs) acc) ∧
      KeysSub (aff.foldl (affBoost3 fh prefs) acc) fh ∧
      (acc ≠ [] → aff.foldl (affBoost3 fh prefs) acc ≠ []) := by
  intro aff
  induction aff with
  | nil => exact fun acc h1 h2 => ⟨h1, h2, fun h => h⟩
  | cons a as ih =>
      intro acc h1 h2
      obtain ⟨g1, g2, g3⟩ := affBoost3_good prefs a hfh h1 h2
      obtain ⟨G1, G2, G3⟩ := ih _ g1 g2
      exact ⟨G1, G2, fun h => G3 (g3 h)⟩

lemma apply_screen_time_rules_goodpool (t : Int) :
    GoodPool (apply_screen_time_rules t) ∧
    ∀ c ∈ valid_preferences, (dget (apply_screen_time_rules t) c).isSome := by
  by_cases h1 : 240 < t
  · rw [apply_screen_time_rules_high h1]
    exact ⟨by decide, by decide⟩
  · by_cases h2 : 120 < t
    · rw [apply_screen_time_rules_mid h2 (by omega)]
      exact ⟨by decide, by decide⟩
    · rw [apply_screen_time_rules_low (by omega)]
      exact ⟨by decide, by decide⟩

lemma classify_affinity_all : ∀ s ∈ valid_moods,
    ((((mood_categories.find? (fun p => p.2.contains s)).map
      (fun p => p.1)).bind (dget mood_preference_affinity)).getD [] ≠ [] ∧
    (∀ a ∈ (((mood_categories.find? (fun p => p.2.contains s)).map
      (fun p => p.1)).bind (dget mood_preference_affinity)).getD [],
      a ∈ valid_preferences)) ∧
    ((((mood_categories.find? (fun p => p.2.contains s)).map
      (fun p => p.1)).bind (dget mood_preference_affinity))).isSome := by
  decide

lemma moodCategory_affinity_of_valid {mood : String}
    (hm : lower mood ∈ valid_moods) :
    ∃ aff, (moodCategoryOf mood).bind (dget mood_preference_affinity) =
        some aff ∧ aff ≠ [] ∧ ∀ a ∈ aff, a ∈ valid_preferences := by
  obtain ⟨⟨h1, h2⟩, h3⟩ := classify_affinity_all (lower mood) hm
  rcases Option.isSome_iff_exists.mp h3 with ⟨aff, haff⟩
  refine ⟨aff, haff, ?_, ?_⟩
  · rw [haff] at h1
    simpa using h1
  · rw [haff] at h2
    simpa using h2

lemma apply_mood_rules_good {mc : Option String} {fh : Catalog}
    {np : List String}
    (hfh : GoodPool fh)
    (hkeys : ∀ c ∈ valid_preferences, (dget fh c).isSome)
    (hnp : ∀ p ∈ np, p ∈ valid_preferences)
    (haff : ∃ aff, mc.bind (dget mood_preference_affinity) = some aff ∧
      aff ≠ [] ∧ ∀ a ∈ aff, a ∈ valid_preferences) :
    GoodPool (apply_mood_rules mc fh np) ∧ apply_mood_rules mc fh np ≠ [] := by
  obtain ⟨aff, haffeq, haffne, haffsub⟩ := haff
  simp only [apply_mood_rules, haffeq]
  by_cases hne : np ≠ []
  · rw [if_pos hne]
    have hex : ∃ p ∈ np, (dget fh p).isSome := by
      rcases List.exists_mem_of_ne_nil np hne with ⟨p, hp⟩
      exact ⟨p, hp, hkeys p (hnp p hp)⟩
    obtain ⟨gra, kra⟩ := foldl_prefBoost_good hfh np []
      (by intro p hp; cases hp) (by intro p hp; cases hp)
    obtain ⟨g1, _, g3⟩ := foldl_affBoost3_good np hfh aff _ gra kra
    have hr1ne : List.foldl (affBoost3 fh np) (List.foldl (prefBoost fh) [] np)
        aff ≠ [] :=
      g3 (foldl_prefBoost_ne_nil_of_key np [] hex)
    simp only [if_neg hr1ne]
    exact ⟨g1, hr1ne⟩
  · rw [if_neg hne, if_pos rfl]
    have hex : ∃ p ∈ aff, (dget fh p).isSome := by
      rcases List.exists_mem_of_ne_nil aff haffne with ⟨a, ha⟩
      exact ⟨a, ha, hkeys a (haffsub a ha)⟩
    obtain ⟨g1, _⟩ := foldl_prefBoost_good hfh aff []
      (by intro p hp; cases hp) (by intro p hp; cases hp)
    have hr2ne := foldl_prefBoost_ne_nil_of_key aff [] hex
    simp only [if_neg hr2ne]
    exact ⟨g1, hr2ne⟩

/-- C9: for every valid input (valid mood in any case, screen time `≥ 0`,
preferences all resolving to canonical categories) and every random draw,
the suggestion succeeds, the returned habit is one of the catalog habits
(the flattened eight category lists), and the empty-pool fallback string is
never returned. -/
theorem valid_inputs_select_catalog_habit (mood : String) (t : Int)
    (prefs : List String) (now : String) (k : Nat)
    (hm : lower mood ∈ valid_moods) (ht : 0 ≤ t)
    (hp : ∀ p ∈ normalize_preferences prefs, p ∈ valid_preferences) :
    ∃ r, get_habit_suggestion mood t prefs now k = Except.ok r ∧
      r.habit ∈ flattenHabits habits ∧
      r.habit ≠ "Take a 5-minute break and reflect on your day" := by
  refine ⟨_, get_habit_suggestion_ok now k (validate_inputs_ok hm ht hp), ?_⟩
  obtain ⟨gscreen, kscreen⟩ := apply_screen_time_rules_goodpool t
  obtain ⟨gpool, hnn⟩ := apply_mood_rules_good gscreen kscreen hp
    (moodCategory_affinity_of_valid hm)
  have hmem := weighted_random_selection_mem k (flattenHabits_ne_nil hnn gpool)
  have hin := flattenHabits_sub gpool _ hmem
  refine ⟨hin, fun heq => ?_⟩
  have hbad : "Take a 5-minute break and reflect on your day" ∈
      flattenHabits habits := heq ▸ hin
  exact absurd hbad (by decide)

/-- C9 witness: a concrete fully valid call. -/
theorem valid_inputs_select_catalog_habit_witness :
    ∃ r, get_habit_suggestion "Happy" 150 ["Productivity"] "2024-01-01" 2 =
        Except.ok r ∧
      r.habit ∈ flattenHabits habits ∧
      r.habit ≠ "Take a 5-minute break and reflect on your day" :=
  valid_inputs_select_catalog_habit "Happy" 150 ["Productivity"] "2024-01-01" 2
    (by decide) (by decide) (by decide)

/-! ### Duplicate preferences do not stack weight -/

lemma mem_firstDedup : ∀ (l : List String) (x : String),
    x ∈ firstDedup l ↔ x ∈ l := by
  intro l
  induction l using firstDedup.induct with
  | case1 => intro x; rw [firstDedup]
  | case2 a rest ih =>
      intro x
      rw [firstDedup]
      simp only [List.mem_cons, ih]
      constructor
      · rintro (rfl | hx)
        · exact Or.inl rfl
        · exact Or.inr (List.mem_filter.mp hx).1
      · rintro (rfl | hx)
        · exact Or.inl rfl
        · by_cases hxa : x = a
          · exact Or.inl hxa
          · exact Or.inr (List.mem_filter.mpr ⟨hx, by simp [hxa]⟩)

lemma firstDedup_eq_nil_iff (l : List String) : firstDedup l = [] ↔ l = [] := by
  cases l with
  | nil => rw [firstDedup]
  | cons a rest =>
      rw [firstDedup]
      simp

lemma dget_dset_self {α : Type} (d : List (String × α)) (k : String) (v : α) :
    dget (dset d k v) k = some v := by
  unfold dset
  by_cases hany : d.any (fun p => p.1 == k)
  · rw [if_pos hany]
    unfold dget
    rw [List.find?_map]
    have hpred : ((fun p => p.1 == k) ∘
        (fun p => if p.1 == k then (k, v) else p) : (String × α) → Bool) =
        fun p => p.1 == k := by
      funext p
      by_cases h : (p.1 == k) = true
      · have h1 : p.1 = k := eq_of_beq h
        simp [h, h1]
      · have h1 : p.1 ≠ k := fun he => h (by rw [he]; exact beq_self_eq_true k)
        simp [h, h1]
    rw [hpred]
    rcases List.any_eq_true.mp hany with ⟨q, hq, hqk⟩
    have hfs : (d.find? (fun p => p.1 == k)).isSome := by
      rw [List.find?_isSome]
      exact ⟨q, hq, hqk⟩
    rcases Option.isSome_iff_exists.mp hfs with ⟨q0, hq0⟩
    have hq0k : (q0.1 == k) = true := by simpa using List.find?_some hq0
    have hq0e : q0.1 = k := eq_of_beq hq0k
    rw [hq0]
    simp [hq0e]
  · rw [if_neg hany]
    unfold dget
    rw [List.find?_append]
    have hnone : d.find? (fun p => p.1 == k) = none := by
      rw [List.find?_eq_none]
      intro x hx hpx
      exact hany (List.any_eq_true.mpr ⟨x, hx, hpx⟩)
    rw [hnone]
    simp [List.find?_cons, beq_self_eq_true]

lemma dget_dset_ne {α : Type} (d : List (String × α)) {k k2 : String} (v : α)
    (hkk : k ≠ k2) : dget (dset d k v) k2 = dget d k2 := by
  unfold dset
  by_cases hany : d.any (fun p => p.1 == k)
  · rw [if_pos hany]
    unfold dget
    rw [List.find?_map]
    have hpred : ((fun p => p.1 == k2) ∘
        (fun p => if p.1 == k then (k, v) else p) : (String × α) → Bool) =
        fun p => p.1 == k2 := by
      funext p
      by_cases h : (p.1 == k) = true
      · have h1 : p.1 = k := eq_of_beq h
        simp [h, h1]
      · have h1 : p.1 ≠ k := fun he => h (by rw [he]; exact beq_self_eq_true k)
        simp [h, h1]
    rw [hpred]
    rcases hd : d.find? (fun p => p.1 == k2) with _ | q0
    · rw [hd]
      rfl
    · rw [hd]
      have hq0 : (q0.1 == k2) = true := by simpa using List.find?_some hd
      have hq0e : q0.1 ≠ k := fun he => hkk (by rw [← he]; exact eq_of_beq hq0)
      simp [hq0e]
  · rw [if_neg hany]
    unfold dget
    rw [List.find?_append]
    rcases hd : d.find? (fun p => p.1 == k2) with _ | q0
    · rw [hd, Option.none_or]
      have hkv : ((k, v).1 == k2) = false := beq_eq_false_iff_ne.mpr hkk
      simp [List.find?_cons, hkv]
    · rw [hd]
      rfl

lemma Coh_prefBoost {fh acc : Catalog} (hc : Coh fh acc) (pref : String) :
    Coh fh (prefBoost fh acc pref) := by
  unfold prefBoost
  rcases h : dget fh pref with _ | l
  · exact hc
  · intro q hq
    rcases mem_dset hq with rfl | hq'
    · exact ⟨l, h, rfl⟩
    · exact hc q hq'

lemma prefBoost_stable {fh acc : Catalog} {pref : String} (hc : Coh fh acc)
    (h : dget fh pref = none ∨ (dget acc pref).isSome) :
    prefBoost fh acc pref = acc := by
  unfold prefBoost
  rcases hf : dget fh pref with _ | l
  · rfl
  · rcases h with h | h
    · rw [hf] at h; cases h
    · rcases Option.isSome_iff_exists.mp h with ⟨v, hv⟩
      rcases dget_eq_some hv with ⟨q, hq, hqk, _⟩
      show dset acc pref (l ++ l) = acc
      have hany : (acc.any fun p => p.1 == pref) = true := by
        rw [List.any_eq_true]
        refine ⟨q, hq, ?_⟩
        show (q.1 == pref) = true
        rw [hqk]
        exact beq_self_eq_true pref
      unfold dset
      rw [if_pos hany]
      have hid : ∀ p ∈ acc,
          (if p.1 == pref then (pref, l ++ l) else p) = p := by
        rintro ⟨pk, pv⟩ hp
        by_cases hpk : (pk == pref) = true
        · rcases hc ⟨pk, pv⟩ hp with ⟨l0, hl0, hv0⟩
          have hp1 : pk = pref := eq_of_beq hpk
          rw [hp1] at hl0
          rw [hf] at hl0
          obtain rfl : l = l0 := Option.some.inj hl0
          simp only [hpk, if_true]
          simp only at hv0
          rw [hp1, hv0]
        · simp only [hpk, Bool.false_eq_true, if_false]
      rw [List.map_congr_left hid]
      exact List.map_id' acc

lemma foldl_prefBoost_filter {fh : Catalog} {a : String} :
    ∀ (rest : List String) (acc : Catalog), Coh fh acc →
      (dget fh a = none ∨ (dget acc a).isSome) →
      List.foldl (prefBoost fh) acc rest =
        List.foldl (prefBoost fh) acc (rest.filter (fun b => !(b == a))) := by
  intro rest
  induction rest with
  | nil => intros; rfl
  | cons b bs ih =>
      intro acc hc hstable
      by_cases hba : (b == a) = true
      · rw [List.filter_cons, if_neg (by simp [hba])]
        have hstep : prefBoost fh acc b = acc := by
          rw [eq_of_beq hba]
          exact prefBoost_stable hc hstable
        show List.foldl (prefBoost fh) (prefBoost fh acc b) bs = _
        rw [hstep]
        exact ih acc hc hstable
      · rw [List.filter_cons, if_pos (by simp [hba])]
        show List.foldl (prefBoost fh) (prefBoost fh acc b) bs =
          List.foldl (prefBoost fh) (prefBoost fh acc b)
            (bs.filter (fun b2 => !(b2 == a)))
        apply ih
        · exact Coh_prefBoost hc b
        · rcases hstable with h | h
          · exact Or.inl h
          · right
            unfold prefBoost
            rcases hf : dget fh b with _ | l
            · exact h
            · have hab : b ≠ a := fun he => by
                rw [he] at hba
                exact hba (beq_self_eq_true a)
              rw [dget_dset_ne _ _ hab]
              exact h

lemma foldl_prefBoost_firstDedup {fh : Catalog} :
    ∀ (prefs : List String) (acc : Catalog), Coh fh acc →
      List.foldl (prefBoost fh) acc prefs =
        List.foldl (prefBoost fh) acc (firstDedup prefs) := by
  intro prefs
  induction prefs using firstDedup.induct with
  | case1 => intro acc _; rw [firstDedup]
  | case2 a rest ih =>
      intro acc hc
      rw [firstDedup]
      show List.foldl (prefBoost fh) (prefBoost fh acc a) rest =
        List.foldl (prefBoost fh) (prefBoost fh acc a)
          (firstDedup (rest.filter (fun b => !(b == a))))
      have hc2 : Coh fh (prefBoost fh acc a) := Coh_prefBoost hc a
      have hst : dget fh a = none ∨ (dget (prefBoost fh acc a) a).isSome := by
        rcases hf : dget fh a with _ | l
        · exact Or.inl rfl
        · right
          unfold prefBoost
          rw [hf]
          rw [dget_dset_self]
          rfl
      rw [foldl_prefBoost_filter rest (prefBoost fh acc a) hc2 hst]
      exact ih _ hc2

lemma affBoost3_congr {fh : Catalog} {prefs prefs2 : List String}
    (hiff : ∀ x, x ∈ prefs ↔ x ∈ prefs2) :
    ∀ (aff : List String) (acc : Catalog),
      List.foldl (affBoost3 fh prefs) acc aff =
        List.foldl (affBoost3 fh prefs2) acc aff := by
  intro aff
  induction aff with
  | nil => intros; rfl
  | cons a as ih =>
      intro acc
      show List.foldl (affBoost3 fh prefs) (affBoost3 fh prefs acc a) as =
        List.foldl (affBoost3 fh prefs2) (affBoost3 fh prefs2 acc a) as
      have hstep : affBoost3 fh prefs acc a = affBoost3 fh prefs2 acc a := by
        unfold affBoost3
        by_cases hcond : a ∈ prefs ∧ (dget acc a).isSome
        · rw [if_pos hcond, if_pos ⟨(hiff a).mp hcond.1, hcond.2⟩]
        · rw [if_neg hcond,
            if_neg (fun hc2 => hcond ⟨(hiff a).mpr hc2.1, hc2.2⟩)]
      rw [hstep]
      exact ih _

/-- C10: duplicate preferences do not stack weight: for every mood
category, every weighted catalog and every preference list, the
mood/preference filter returns the same result for the list as for the
list with later duplicate occurrences removed, so a repeated preference
still gets exactly the ×2 (or ×3 affinity) boost. -/
theorem duplicate_preferences_do_not_stack (mood_category : Option String)
    (filtered_habits : Catalog) (preferences : List String) :
    apply_mood_rules mood_category filtered_habits preferences =
      apply_mood_rules mood_category filtered_habits (firstDedup preferences) := by
  by_cases hne : preferences ≠ []
  · have hne2 : firstDedup preferences ≠ [] :=
      fun h => hne ((firstDedup_eq_nil_iff preferences).mp h)
    have hra : List.foldl (prefBoost filtered_habits) [] preferences =
        List.foldl (prefBoost filtered_habits) [] (firstDedup preferences) :=
      foldl_prefBoost_firstDedup preferences [] (by rintro q ⟨⟩)
    rcases hm : mood_category.bind (dget mood_preference_affinity) with _ | aff
    · simp only [apply_mood_rules, hm, if_pos hne, if_pos hne2]
      rw [hra]
    · simp only [apply_mood_rules, hm, if_pos hne, if_pos hne2]
      rw [hra, affBoost3_congr (fun x => (mem_firstDedup preferences x).symm) aff
        (List.foldl (prefBoost filtered_habits) [] (firstDedup preferences))]
  · rw [not_ne_iff.mp hne]
    rw [firstDedup]

end HabitRec
